import Mathlib

/-!
Verification of the shard-range management core of
`swift/cli/manage_shard_ranges.py`.

The Python source is shallowly embedded: shard ranges become a Lean
structure over `String` bounds and `Nat` timestamps, the container broker
becomes an explicit state record, interactive input becomes a list of
responses, and the process-wide `exit(status)` calls become early returns
carrying the status.  Library functions imported by the tool from other
swift modules (`ShardRange.update_state`, the broker primitives,
`find_overlapping_ranges`, `make_shard_ranges`,
`process_compactible_shard_sequences`) are not part of the sources being
verified; each such definition is modelled from the specification and says
so in its doc comment.
-/

namespace ManageShardRanges

/-- States of a shard range, from the spec data model (section 3). -/
inductive ShardState where
  | FOUND
  | CREATED
  | CLEAVED
  | ACTIVE
  | SHARDING
  | SHARDED
  | SHRINKING
  | SHRUNK
deriving DecidableEq, Repr, BEq

/-- Embeds the ShardRange record: bounds are strings (empty string is an
open bound), timestamps are naturals, `epoch` is optional. -/
structure ShardRange where
  lower : String
  upper : String
  object_count : Int
  state : ShardState
  state_timestamp : Nat
  timestamp : Nat
  epoch : Option Nat
  deleted : Bool
deriving DecidableEq, Repr, BEq

/-- Embeds the inner `reason(x, y)` helper of `_check_shard_ranges`:
append the message `x != y` exactly when the two bounds differ. -/
def boundReason (x y : String) : List String :=
  if x ≠ y then [x ++ " != " ++ y] else []

/-- Embeds the `for x, y in zip(shard_ranges, shard_ranges[1:])` loop of
`_check_shard_ranges`: one reason per adjacent pair whose bounds differ. -/
def adjacentReasons : List ShardRange → List String
  | [] => []
  | [_] => []
  | x :: y :: rest => boundReason x.upper y.lower ++ adjacentReasons (y :: rest)

/-- Embeds `_check_shard_ranges(own_shard_range, shard_ranges)`: collect
every violated contiguity condition; validation succeeds exactly when the
collected list is empty (the Python code calls `exit(2)` otherwise). -/
def checkShardRanges (own : ShardRange) (srs : List ShardRange) : List String :=
  match srs with
  | [] => ["No shard ranges."]
  | first :: rest =>
      boundReason own.lower first.lower
        ++ boundReason own.upper (rest.getLastD first).upper
        ++ adjacentReasons (first :: rest)

/-- Modelled from the spec: the container broker state visible to this
tool, section 6 — the persisted own shard range, the persisted shard
ranges (soft-deleted ranges kept as tombstones), a timestamped metadata
key/value store, and the root/sharded flags read by the compact command. -/
structure Broker where
  ownShardRange : Option ShardRange
  shardRanges : List ShardRange
  metadata : List (String × String)
  isRoot : Bool
  sharded : Bool
deriving DecidableEq, Repr, BEq

/-- Modelled from the spec: `broker.get_shard_ranges()` returns the
non-deleted shard ranges (deleted ranges are tombstones, section 3). -/
def liveShardRanges (b : Broker) : List ShardRange :=
  b.shardRanges.filter fun sr => sr.deleted = false

/-- Modelled from the spec: `broker.update_metadata` stores a timestamped
value under a metadata key, replacing any previous value for that key. -/
def updateMetadata (b : Broker) (k v : String) : Broker :=
  { b with metadata := (k, v) :: b.metadata.filter fun p => p.1 ≠ k }

/-- Value currently held for a metadata key, if any. -/
def metadataValue (b : Broker) (k : String) : Option String :=
  (b.metadata.find? fun p => p.1 = k).map fun p => p.2

/-- Modelled from the spec: merging the own shard range record back into
the store persists the updated own range (section 6 merge primitive,
restricted to the own-range record). -/
def mergeOwnShardRange (b : Broker) (sr : ShardRange) : Broker :=
  { b with ownShardRange := some sr }

/-- Modelled from the spec: `broker.merge_shard_ranges` is the section 6
range-merge primitive — a last-writer-wins reconciling merge of range
records, keyed by the `(lower, upper)` identity of section 3. -/
def mergeOneShardRange (rs : List ShardRange) (incoming : ShardRange) :
    List ShardRange :=
  if rs.any fun sr => sr.lower = incoming.lower ∧ sr.upper = incoming.upper then
    rs.map fun sr =>
      if sr.lower = incoming.lower ∧ sr.upper = incoming.upper ∧
          sr.timestamp ≤ incoming.timestamp then incoming else sr
  else rs ++ [incoming]

/-- Merge a batch of incoming shard-range records into the store. -/
def mergeShardRanges (b : Broker) (incoming : List ShardRange) : Broker :=
  { b with shardRanges := incoming.foldl mergeOneShardRange b.shardRanges }

/-- Modelled from the spec: `ShardRange.update_state` lives in
`swift.common.utils`, outside the sources under verification.  Per
section 4.3 the enable action's transition into SHARDING goes ahead (and
triggers the epoch assignment in `_enable_sharding`) both from ACTIVE and
as the repair of a SHARDING range missing its epoch, so the update sets
the state and reports that a change took place. -/
def updateState (sr : ShardRange) (s : ShardState) : Bool × ShardRange :=
  (true, { sr with state := s })

/-- Outcome reported by the enable sub-command, mirroring its printed
messages and exit paths. -/
inductive EnableResult where
  | movedTo (epoch : Nat)
  | alreadyEnabled (epoch : Nat)
  | repaired (epoch : Nat)
  | invalidState (s : ShardState)
  | invalidRanges (reasons : List String)
  | missingOwnRange
deriving DecidableEq, Repr

/-- Exit status, resulting broker state and reported outcome of one
enable invocation. -/
structure EnableOutcome where
  status : Nat
  broker : Broker
  result : EnableResult
deriving DecidableEq, Repr

/-- Embeds `_enable_sharding(broker, own_shard_range, args)`: update the
own range state to SHARDING; when a change is reported, assign
`epoch := now` and `state_timestamp := epoch`; then, inside one broker
timeout scope, merge the own range and persist the sharding metadata
flag. -/
def enableShardingInner (b : Broker) (own : ShardRange) (now : Nat) :
    ShardRange × Broker :=
  let p := updateState own ShardState.SHARDING
  let own2 :=
    if p.1 then { p.2 with epoch := some now, state_timestamp := now } else p.2
  (own2,
    updateMetadata (mergeOwnShardRange b own2) "X-Container-Sysmeta-Sharding"
      "True")

/-- Embeds the body of `enable_sharding` after its two checks passed:
dispatch on the own range state. -/
def enableShardingChecked (b : Broker) (own : ShardRange) (now : Nat) :
    EnableOutcome :=
  if own.state = ShardState.ACTIVE then
    let p := enableShardingInner b own now
    ⟨0, p.2, EnableResult.movedTo (p.1.epoch.getD 0)⟩
  else if own.state = ShardState.SHARDING then
    match own.epoch with
    | some e => ⟨0, b, EnableResult.alreadyEnabled e⟩
    | none =>
        let p := enableShardingInner b own now
        ⟨0, p.2, EnableResult.repaired (p.1.epoch.getD 0)⟩
  else ⟨2, b, EnableResult.invalidState own.state⟩

/-- Embeds `enable_sharding(broker, args)`: check the own shard range is
present (`_check_own_shard_range`, which exits with status 2 otherwise),
validate coverage of the stored shard ranges (`_check_shard_ranges`,
which exits with status 2 on any violation), then dispatch on state. -/
def enableSharding (b : Broker) (now : Nat) : EnableOutcome :=
  match b.ownShardRange with
  | none => ⟨2, b, EnableResult.missingOwnRange⟩
  | some own =>
      if checkShardRanges own (liveShardRanges b) = [] then
        enableShardingChecked b own now
      else
        ⟨2, b, EnableResult.invalidRanges (checkShardRanges own (liveShardRanges b))⟩

/-- Record shape produced by the store scan primitive and exchanged
through the find/replace interchange format: the four required fields. -/
structure ShardData where
  lower : String
  upper : String
  index : Int
  object_count : Int
deriving DecidableEq, Repr

/-- Embeds the `while not last_found` loop of `_find_ranges`.  Each
iteration checks the exhaustion flag of the previous response, then asks
the store primitive for the next batch and appends it.  The primitive is
abstracted as an oracle from the call number (the first call, made before
the loop, is call 0) to a response; `fuel` bounds the number of modelled
iterations, with `none` meaning the loop is still running. -/
def findLoop (oracle : Nat → List ShardData × Bool) :
    Nat → Nat → List ShardData → Bool → Option (List ShardData)
  | 0, _, acc, lastFound => if lastFound then some acc else none
  | fuel + 1, k, acc, lastFound =>
      if lastFound then some acc
      else findLoop oracle fuel (k + 1) (acc ++ (oracle k).1) (oracle k).2

/-- Embeds `_find_ranges`: make the initial call; when it returns no
ranges, return immediately (the `if shard_data:` guard), otherwise run
the batching loop. -/
def findRanges (oracle : Nat → List ShardData × Bool) (fuel : Nat) :
    Option (List ShardData) :=
  if (oracle 0).1 = [] then some (oracle 0).1
  else findLoop oracle fuel 1 (oracle 0).1 (oracle 0).2

/-- Termination of the range-discovery loop on a given response sequence:
some finite amount of fuel suffices for the loop to finish. -/
def findTerminates (oracle : Nat → List ShardData × Bool) : Prop :=
  ∃ fuel, (findRanges oracle fuel).isSome = true

/-- Response sequence whose first call returns one range without
exhaustion and whose every later call returns no ranges and no
exhaustion. -/
def stallingOracle : Nat → List ShardData × Bool :=
  fun k =>
    if k = 0 then
      ([{ lower := "", upper := "m", index := 0, object_count := 1 }], false)
    else ([], false)

/-- Outcome reported by the delete sub-command. -/
inductive DeleteResult where
  | nothingToDelete
  | quit
  | deleted (n : Nat)
deriving DecidableEq, Repr

/-- Embeds the deletion step of `delete_shard_ranges`: mark every live
range as deleted at the current time and merge the tombstones back. -/
def markDeleted (b : Broker) (now : Nat) : Broker :=
  mergeShardRanges b
    ((liveShardRanges b).map fun sr => { sr with deleted := true, timestamp := now })

/-- Embeds the confirmation loop of `delete_shard_ranges`: consume
operator responses; `s` shows the ranges and re-prompts, `q` quits with
status 1, `yes` deletes, anything else re-prompts.  Running out of
responses models end of input, on which the Python process dies. -/
def deletePromptLoop (b : Broker) (now : Nat) :
    List String → Option (Nat × Broker × DeleteResult)
  | [] => none
  | c :: rest =>
      if c = "s" then deletePromptLoop b now rest
      else if c = "q" then some (1, b, DeleteResult.quit)
      else if c = "yes" then
        some (0, markDeleted b now, DeleteResult.deleted (liveShardRanges b).length)
      else deletePromptLoop b now rest

/-- Embeds `delete_shard_ranges(broker, args)`: nothing to delete is a
success; with `--force` delete immediately; otherwise run the
confirmation loop. -/
def deleteShardRanges (b : Broker) (force : Bool) (now : Nat)
    (inputs : List String) : Option (Nat × Broker × DeleteResult) :=
  if liveShardRanges b = [] then some (0, b, DeleteResult.nothingToDelete)
  else if force then
    some (0, markDeleted b now, DeleteResult.deleted (liveShardRanges b).length)
  else deletePromptLoop b now inputs

/-- Modelled from the spec: `make_shard_ranges` (sharder module, not under
the verified sources) builds one ShardRange per input record in order,
carrying over lower, upper and object count; newly built ranges start in
state FOUND (section 3 lifecycle) and are not deleted. -/
def makeShardRanges (data : List ShardData) (now : Nat) : List ShardRange :=
  data.map fun d =>
    { lower := d.lower, upper := d.upper, object_count := d.object_count,
      state := ShardState.FOUND, state_timestamp := now, timestamp := now,
      epoch := none, deleted := false }

/-- Outcome reported by the replace sub-command. -/
inductive ReplaceResult where
  | missingOwnRange
  | invalidRanges (reasons : List String)
  | deleteAborted (r : DeleteResult)
  | injected (n : Nat) (en : Option EnableResult)
deriving DecidableEq, Repr

/-- Embeds `_replace_shard_ranges(broker, args, shard_data)`: check the
own range is present, build the new ranges, validate them against the own
range (`exit(2)` on failure), run the embedded delete step, propagate any
non-zero delete status, otherwise merge the new ranges and optionally
chain into the enable action. -/
def replaceShardRanges (b : Broker) (data : List ShardData)
    (force enable : Bool) (now : Nat) (inputs : List String) :
    Option (Nat × Broker × ReplaceResult) :=
  match b.ownShardRange with
  | none => some (2, b, ReplaceResult.missingOwnRange)
  | some own =>
      let newRanges := makeShardRanges data now
      if checkShardRanges own newRanges = [] then
        match deleteShardRanges b force now inputs with
        | none => none
        | some (st, b1, dr) =>
            if st ≠ 0 then some (st, b1, ReplaceResult.deleteAborted dr)
            else
              let b2 := mergeShardRanges b1 newRanges
              if enable then
                let eo := enableSharding b2 now
                some (eo.status, eo.broker,
                  ReplaceResult.injected newRanges.length (some eo.result))
              else some (0, b2, ReplaceResult.injected newRanges.length none)
      else some (2, b, ReplaceResult.invalidRanges (checkShardRanges own newRanges))

/-- Lexicographic comparison of the character lists backing two strings,
by code point. -/
def charListLt : List Char → List Char → Bool
  | _, [] => false
  | [], _ :: _ => true
  | c :: cs, d :: ds =>
      if c.toNat < d.toNat then true
      else if d.toNat < c.toNat then false
      else charListLt cs ds

/-- Lexicographic strict order on strings, by code point. -/
def strLt (s t : String) : Bool :=
  charListLt s.data t.data

/-- Modelled from the spec: a lower bound sits strictly below an upper
bound; the empty string is an open (infinite) bound on either side. -/
def lowerLtUpper (l u : String) : Bool :=
  l == "" || u == "" || strLt l u

/-- Modelled from the spec: two ranges overlap when their half-open
intervals over the namespace intersect. -/
def rangesOverlap (a b : ShardRange) : Bool :=
  lowerLtUpper a.lower b.upper && lowerLtUpper b.lower a.upper

/-- Modelled from the spec: `find_overlapping_ranges` (sharder module,
not under the verified sources) detects overlapping ranges in a list; the
caller only tests the result for emptiness, so a Bool is returned. -/
def findOverlappingRanges : List ShardRange → Bool
  | [] => false
  | x :: rest =>
      rest.any (fun y => rangesOverlap x y) || findOverlappingRanges rest

/-- Embeds the acceptor check of `compact_shard_ranges`: the last element
of a planned sequence must be in ACTIVE or SHARDED state.  The planner
only emits non-empty sequences, so the empty case does not arise. -/
def acceptorBad (s : List ShardRange) : Bool :=
  match s.getLast? with
  | some a => a.state != ShardState.ACTIVE && a.state != ShardState.SHARDED
  | none => false

/-- Modelled from the spec: `process_compactible_shard_sequences`
(section 4.5, sharder module, not under the verified sources) marks each
approved sequence's donor ranges — all but the final acceptor — as
SHRINKING in the store. -/
def processCompactible (b : Broker) (seqs : List (List ShardRange)) : Broker :=
  { b with
      shardRanges := b.shardRanges.map fun sr =>
        if seqs.any fun s => s.dropLast.contains sr then
          { sr with state := ShardState.SHRINKING }
        else sr }

/-- Outcome reported by the compact sub-command. -/
inductive CompactResult where
  | notRoot
  | notSharded
  | hasOverlaps
  | noCompactible
  | acceptorBadState (st : ShardState)
  | declined
  | applied (n : Nat)
deriving DecidableEq, Repr

/-- Exit status, resulting broker state and reported outcome of one
compact invocation. -/
structure CompactOutcome where
  status : Nat
  broker : Broker
  result : CompactResult
deriving DecidableEq, Repr

/-- Embeds `compact_shard_ranges(broker, args)`: three preconditions in
order (root container, already sharded, no overlaps among non-SHRINKING
ranges), then the planner result — abstracted as the `compactible`
argument since `find_compactible_shard_sequences` is external — with an
empty plan a success, a sequence whose acceptor is in the wrong state an
error with status 1, a declined confirmation a no-op with status 0, and
otherwise the application of the plan. -/
def compactShardRanges (b : Broker) (yes : Bool) (choice : String)
    (compactible : List (List ShardRange)) : CompactOutcome :=
  if b.isRoot = false then ⟨2, b, CompactResult.notRoot⟩
  else if b.sharded = false then ⟨2, b, CompactResult.notSharded⟩
  else if findOverlappingRanges
      ((liveShardRanges b).filter fun sr => sr.state != ShardState.SHRINKING) then
    ⟨2, b, CompactResult.hasOverlaps⟩
  else if compactible = [] then ⟨0, b, CompactResult.noCompactible⟩
  else
    match compactible.find? acceptorBad with
    | some s =>
        ⟨1, b,
          CompactResult.acceptorBadState
            (((s.getLast?).map fun a => a.state).getD ShardState.FOUND)⟩
    | none =>
        if !yes && choice != "y" then ⟨0, b, CompactResult.declined⟩
        else
          ⟨0, processCompactible b compactible,
            CompactResult.applied compactible.length⟩

/-- Minimal JSON value model for the interchange format. -/
inductive Json where
  | str (s : String)
  | num (n : Int)
  | arr (xs : List Json)
  | obj (fields : List (String × Json))

/-- Embeds find's serialization of one discovered record: `json.dumps`
with sorted keys writes the four keys in alphabetical order. -/
def serializeRange (d : ShardData) : Json :=
  Json.obj [("index", Json.num d.index), ("lower", Json.str d.lower),
    ("object_count", Json.num d.object_count), ("upper", Json.str d.upper)]

/-- Embeds find's output: the JSON array of the serialized records, in
discovery order. -/
def serializeFind (ds : List ShardData) : Json :=
  Json.arr (ds.map serializeRange)

/-- Look up a key in a JSON object's field list. -/
def jsonLookup (fields : List (String × Json)) (k : String) : Option Json :=
  (fields.find? fun p => p.1 = k).map fun p => p.2

/-- Embeds the per-record requirement of `_load_and_validate_shard_data`:
each record must carry the keys lower, upper, index and object_count
(with the value shapes the find output produces); the record is kept
projected onto those four fields, which are the ones the replace path
consumes. -/
def parseRange (j : Json) : Option ShardData :=
  match j with
  | Json.obj fs =>
      match jsonLookup fs "lower", jsonLookup fs "upper", jsonLookup fs "index",
          jsonLookup fs "object_count" with
      | some (Json.str l), some (Json.str u), some (Json.num i),
          some (Json.num c) =>
          some { lower := l, upper := u, index := i, object_count := c }
      | _, _, _, _ => none
  | _ => none

/-- Parse every record of the ingested list, failing on any bad record. -/
def parseAllRanges : List Json → Option (List ShardData)
  | [] => some []
  | j :: rest =>
      match parseRange j, parseAllRanges rest with
      | some d, some ds => some (d :: ds)
      | _, _ => none

/-- Embeds `_load_and_validate_shard_data`: the document must be a list
of records each carrying the four required keys. -/
def loadShardData (j : Json) : Option (List ShardData) :=
  match j with
  | Json.arr xs => parseAllRanges xs
  | _ => none

/-- Sample own range covering the whole namespace, used as concrete input. -/
def sampleOwn : ShardRange :=
  { lower := "", upper := "", object_count := 10, state := ShardState.ACTIVE,
    state_timestamp := 0, timestamp := 0, epoch := none, deleted := false }

/-- Sample child range covering the left half of the namespace. -/
def sampleChild1 : ShardRange :=
  { lower := "", upper := "m", object_count := 5, state := ShardState.FOUND,
    state_timestamp := 0, timestamp := 0, epoch := none, deleted := false }

/-- Sample child range covering the right half of the namespace. -/
def sampleChild2 : ShardRange :=
  { lower := "m", upper := "", object_count := 5, state := ShardState.FOUND,
    state_timestamp := 0, timestamp := 0, epoch := none, deleted := false }

/-- Sample child range leaving a gap after `sampleChild1`. -/
def sampleGapChild : ShardRange :=
  { lower := "x", upper := "", object_count := 5, state := ShardState.FOUND,
    state_timestamp := 0, timestamp := 0, epoch := none, deleted := false }

/-- Sample broker: ACTIVE own range with contiguous children. -/
def sampleBroker : Broker :=
  { ownShardRange := some sampleOwn, shardRanges := [sampleChild1, sampleChild2],
    metadata := [], isRoot := true, sharded := false }

/-- Sample own range stuck in SHARDING with no epoch assigned. -/
def sampleOwnSharding : ShardRange :=
  { sampleOwn with state := ShardState.SHARDING }

/-- Sample broker whose own range is SHARDING without an epoch. -/
def sampleBrokerSharding : Broker :=
  { sampleBroker with ownShardRange := some sampleOwnSharding }

/-- Sample own range in the post-sharding SHARDED state. -/
def sampleOwnSharded : ShardRange :=
  { sampleOwn with state := ShardState.SHARDED }

/-- Sample broker whose own range is SHARDED. -/
def sampleBrokerSharded : Broker :=
  { sampleBroker with ownShardRange := some sampleOwnSharded }

/-- Sample broker whose stored ranges leave a coverage gap. -/
def sampleBrokerGap : Broker :=
  { sampleBroker with shardRanges := [sampleChild1, sampleGapChild] }

/-- Sample ACTIVE shard range on the left half, for compaction inputs. -/
def compactLeft : ShardRange :=
  { lower := "", upper := "m", object_count := 3, state := ShardState.ACTIVE,
    state_timestamp := 0, timestamp := 0, epoch := none, deleted := false }

/-- Sample ACTIVE shard range on the right half, for compaction inputs. -/
def compactRight : ShardRange :=
  { lower := "m", upper := "", object_count := 3, state := ShardState.ACTIVE,
    state_timestamp := 0, timestamp := 0, epoch := none, deleted := false }

/-- Sample acceptor in CREATED state, not mergeable. -/
def compactBadAcceptor : ShardRange :=
  { lower := "m", upper := "", object_count := 3, state := ShardState.CREATED,
    state_timestamp := 0, timestamp := 0, epoch := none, deleted := false }

/-- Sample root, fully sharded broker with non-overlapping ranges. -/
def compactBroker : Broker :=
  { ownShardRange := some sampleOwnSharded,
    shardRanges := [compactLeft, compactRight], metadata := [], isRoot := true,
    sharded := true }

/-- Sample interchange records matching the sample own range's bounds. -/
def sampleData : List ShardData :=
  [{ lower := "", upper := "m", index := 0, object_count := 5 },
   { lower := "m", upper := "", index := 1, object_count := 5 }]

/-- Response sequence whose first call already reports exhaustion. -/
def exhaustedOracle : Nat → List ShardData × Bool :=
  fun _ => ([{ lower := "", upper := "", index := 0, object_count := 1 }], true)

end ManageShardRanges

namespace ManageShardRanges

lemma boundReason_eq_nil {x y : String} : boundReason x y = [] ↔ x = y := by
  by_cases h : x = y <;> simp [boundReason, h]

lemma mem_boundReason {x y : String} (h : x ≠ y) :
    (x ++ " != " ++ y) ∈ boundReason x y := by
  simp [boundReason, h]

lemma adjacentReasons_eq_nil (l : List ShardRange) :
    adjacentReasons l = [] ↔ ∀ p ∈ l.zip l.tail, p.1.upper = p.2.lower := by
  induction l with
  | nil => simp [adjacentReasons]
  | cons x rest ih =>
      cases rest with
      | nil => simp [adjacentReasons]
      | cons y rest2 =>
          simp only [adjacentReasons, List.append_eq_nil, List.tail_cons,
            List.zip_cons_cons, List.mem_cons, boundReason_eq_nil] at *
          constructor
          · rintro ⟨h1, h2⟩ p hp
            rcases hp with rfl | hp
            · exact h1
            · exact (ih.mp h2) p hp
          · intro h
            exact ⟨h _ (Or.inl rfl), ih.mpr fun p hp => h p (Or.inr hp)⟩

lemma mem_adjacentReasons {l : List ShardRange} {p : ShardRange × ShardRange}
    (hp : p ∈ l.zip l.tail) (hne : p.1.upper ≠ p.2.lower) :
    (p.1.upper ++ " != " ++ p.2.lower) ∈ adjacentReasons l := by
  induction l with
  | nil => simp at hp
  | cons x rest ih =>
      cases rest with
      | nil => simp at hp
      | cons y rest2 =>
          simp only [List.tail_cons, List.zip_cons_cons, List.mem_cons] at hp
          simp only [adjacentReasons, List.mem_append]
          rcases hp with rfl | hp
          · exact Or.inl (mem_boundReason hne)
          · exact Or.inr (ih hp)

lemma getLast?_cons_eq (a : ShardRange) (l : List ShardRange) :
    (a :: l).getLast? = some (l.getLastD a) := by
  induction l generalizing a with
  | nil => rfl
  | cons b m ih => rw [List.getLast?_cons_cons, ih, List.getLastD_cons]

/-- Validation of shard-range coverage (claim C1): `_check_shard_ranges`
reports no reason, and hence succeeds, exactly when the candidate list is
non-empty, its first lower bound equals the own range lower bound, its
last upper bound equals the own range upper bound, and each adjacent
pair is contiguous; moreover every violated condition contributes its
message to the reported list, not only the first one found. -/
theorem check_shard_ranges_correct (own : ShardRange) (srs : List ShardRange) :
    (checkShardRanges own srs = [] ↔
      srs ≠ [] ∧
      (∀ f ∈ srs.head?, own.lower = f.lower) ∧
      (∀ l ∈ srs.getLast?, own.upper = l.upper) ∧
      (∀ p ∈ srs.zip srs.tail, p.1.upper = p.2.lower)) ∧
    (srs = [] → "No shard ranges." ∈ checkShardRanges own srs) ∧
    (∀ f ∈ srs.head?, own.lower ≠ f.lower →
      (own.lower ++ " != " ++ f.lower) ∈ checkShardRanges own srs) ∧
    (∀ l ∈ srs.getLast?, own.upper ≠ l.upper →
      (own.upper ++ " != " ++ l.upper) ∈ checkShardRanges own srs) ∧
    (∀ p ∈ srs.zip srs.tail, p.1.upper ≠ p.2.lower →
      (p.1.upper ++ " != " ++ p.2.lower) ∈ checkShardRanges own srs) := by
  cases srs with
  | nil =>
      refine ⟨by simp [checkShardRanges], by simp [checkShardRanges], ?_, ?_, ?_⟩ <;> simp
  | cons first rest =>
      have hlast : (first :: rest).getLast? = some (rest.getLastD first) :=
        getLast?_cons_eq first rest
      constructor
      · simp only [checkShardRanges, List.append_eq_nil, boundReason_eq_nil,
          adjacentReasons_eq_nil, List.head?_cons, hlast, Option.mem_def,
          Option.some.injEq, ne_eq, forall_eq']
        tauto
      · refine ⟨by simp, ?_, ?_, ?_⟩
        · simp only [List.head?_cons, Option.mem_def, Option.some.injEq]
          rintro f rfl hne
          simp only [checkShardRanges, List.mem_append]
          exact Or.inl (Or.inl (mem_boundReason hne))
        · simp only [hlast, Option.mem_def, Option.some.injEq]
          rintro l rfl hne
          simp only [checkShardRanges, List.mem_append]
          exact Or.inl (Or.inr (mem_boundReason hne))
        · intro p hp hne
          simp only [checkShardRanges, List.mem_append]
          exact Or.inr (mem_adjacentReasons hp hne)

/-- Witness for C1 at concrete inputs: a contiguous pair validates, and on
a gapped pair the theorem yields the gap message in the reported reasons. -/
theorem check_shard_ranges_correct_witness :
    checkShardRanges sampleOwn [sampleChild1, sampleChild2] = [] ∧
    ("m != x" ∈ checkShardRanges sampleOwn [sampleChild1, sampleGapChild]) := by
  constructor
  · refine (check_shard_ranges_correct sampleOwn [sampleChild1, sampleChild2]).1.mpr
      ⟨by simp, ?_, ?_, ?_⟩
    · simp [sampleOwn, sampleChild1]
    · simp [getLast?_cons_eq, List.getLastD, sampleOwn, sampleChild2]
    · simp [sampleChild1, sampleChild2]
  · exact (check_shard_ranges_correct sampleOwn
      [sampleChild1, sampleGapChild]).2.2.2.2
      (sampleChild1, sampleGapChild) (List.mem_cons_self _ _) (by decide)

lemma metadataValue_updateMetadata (b : Broker) (k v : String) :
    metadataValue (updateMetadata b k v) k = some v := by
  simp [metadataValue, updateMetadata, List.find?_cons]

lemma enableSharding_active_eq (b : Broker) (own : ShardRange) (now : Nat)
    (hOwn : b.ownShardRange = some own)
    (hCheck : checkShardRanges own (liveShardRanges b) = [])
    (hState : own.state = ShardState.ACTIVE) :
    enableSharding b now =
      ⟨0,
        updateMetadata
          (mergeOwnShardRange b
            { own with
                state := ShardState.SHARDING
                epoch := some now
                state_timestamp := now })
          "X-Container-Sysmeta-Sharding" "True",
        EnableResult.movedTo now⟩ := by
  simp [enableSharding, hOwn, hCheck, enableShardingChecked, hState,
    enableShardingInner, updateState]

lemma checkShardRanges_bounds (o1 o2 : ShardRange) (srs : List ShardRange)
    (h1 : o1.lower = o2.lower) (h2 : o1.upper = o2.upper) :
    checkShardRanges o1 srs = checkShardRanges o2 srs := by
  cases srs <;> simp [checkShardRanges, h1, h2]

lemma enableSharding_repair_eq (b : Broker) (own : ShardRange) (now : Nat)
    (hOwn : b.ownShardRange = some own)
    (hCheck : checkShardRanges own (liveShardRanges b) = [])
    (hState : own.state = ShardState.SHARDING) (hEpoch : own.epoch = none) :
    enableSharding b now =
      ⟨0,
        updateMetadata
          (mergeOwnShardRange b
            { own with
                state := ShardState.SHARDING
                epoch := some now
                state_timestamp := now })
          "X-Container-Sysmeta-Sharding" "True",
        EnableResult.repaired now⟩ := by
  simp [enableSharding, hOwn, hCheck, enableShardingChecked, hState, hEpoch,
    enableShardingInner, updateState]

/-- Claim C2: enabling sharding on an own range in state ACTIVE whose
stored child ranges pass the coverage validation succeeds (status 0),
moves the own range to SHARDING with `epoch = now` and
`state_timestamp = epoch`, and persists the sharding-enabled metadata
flag together with the updated range, leaving the child ranges alone. -/
theorem enable_active_transition (b : Broker) (own : ShardRange) (now : Nat)
    (hOwn : b.ownShardRange = some own)
    (hCheck : checkShardRanges own (liveShardRanges b) = [])
    (hState : own.state = ShardState.ACTIVE) :
    (enableSharding b now).status = 0 ∧
    (enableSharding b now).broker.ownShardRange =
      some { own with
               state := ShardState.SHARDING
               epoch := some now
               state_timestamp := now } ∧
    metadataValue (enableSharding b now).broker "X-Container-Sysmeta-Sharding" =
      some "True" ∧
    (enableSharding b now).broker.shardRanges = b.shardRanges ∧
    (enableSharding b now).result = EnableResult.movedTo now := by
  rw [enableSharding_active_eq b own now hOwn hCheck hState]
  exact ⟨rfl, rfl, metadataValue_updateMetadata _ _ _, rfl, rfl⟩

/-- Witness for C2: enabling the sample ACTIVE broker at time 7 succeeds
and reports the move with epoch 7. -/
theorem enable_active_transition_witness :
    (enableSharding sampleBroker 7).status = 0 ∧
    (enableSharding sampleBroker 7).result = EnableResult.movedTo 7 := by
  have h := enable_active_transition sampleBroker sampleOwn 7 rfl (by decide) rfl
  exact ⟨h.1, h.2.2.2.2⟩

/-- Claim C3: enabling sharding on an own range already in state SHARDING
but missing its epoch assigns the epoch now, persists it together with
the metadata flag, and reports a completed repair carrying the new
epoch — not the no-op outcome. -/
theorem enable_repairs_missing_epoch (b : Broker) (own : ShardRange)
    (now : Nat) (hOwn : b.ownShardRange = some own)
    (hCheck : checkShardRanges own (liveShardRanges b) = [])
    (hState : own.state = ShardState.SHARDING) (hEpoch : own.epoch = none) :
    (enableSharding b now).status = 0 ∧
    (enableSharding b now).broker.ownShardRange =
      some { own with
               state := ShardState.SHARDING
               epoch := some now
               state_timestamp := now } ∧
    metadataValue (enableSharding b now).broker "X-Container-Sysmeta-Sharding" =
      some "True" ∧
    (enableSharding b now).result = EnableResult.repaired now ∧
    ∀ e, (enableSharding b now).result ≠ EnableResult.alreadyEnabled e := by
  rw [enableSharding_repair_eq b own now hOwn hCheck hState hEpoch]
  exact ⟨rfl, rfl, metadataValue_updateMetadata _ _ _, rfl, by intro e h; cases h⟩

/-- Witness for C3: repairing the sample epoch-less SHARDING broker at
time 9 succeeds and reports a repair with epoch 9. -/
theorem enable_repairs_missing_epoch_witness :
    (enableSharding sampleBrokerSharding 9).status = 0 ∧
    (enableSharding sampleBrokerSharding 9).result = EnableResult.repaired 9 := by
  have h := enable_repairs_missing_epoch sampleBrokerSharding sampleOwnSharding
    9 rfl (by decide) rfl rfl
  exact ⟨h.1, h.2.2.2.1⟩

/-- Claim C4: enable is idempotent — with an epoch already present on a
SHARDING own range it reports that epoch, mutates nothing and returns
status 0; consequently invoking enable twice in succession yields the
same epoch both times while the second invocation leaves the broker
untouched. -/
theorem enable_idempotent (b : Broker) (own : ShardRange) (now now2 e : Nat)
    (hOwn : b.ownShardRange = some own)
    (hCheck : checkShardRanges own (liveShardRanges b) = []) :
    (own.state = ShardState.SHARDING → own.epoch = some e →
      enableSharding b now = ⟨0, b, EnableResult.alreadyEnabled e⟩) ∧
    (own.state = ShardState.ACTIVE →
      (enableSharding b now).result = EnableResult.movedTo now ∧
      enableSharding (enableSharding b now).broker now2 =
        ⟨0, (enableSharding b now).broker, EnableResult.alreadyEnabled now⟩) := by
  constructor
  · intro hS hE
    simp [enableSharding, hOwn, hCheck, enableShardingChecked, hS, hE]
  · intro hS
    rw [enableSharding_active_eq b own now hOwn hCheck hS]
    refine ⟨rfl, ?_⟩
    have hCheck2 : checkShardRanges
        { own with
            state := ShardState.SHARDING
            epoch := some now
            state_timestamp := now }
        (liveShardRanges
          (updateMetadata
            (mergeOwnShardRange b
              { own with
                  state := ShardState.SHARDING
                  epoch := some now
                  state_timestamp := now })
            "X-Container-Sysmeta-Sharding" "True")) = [] := by
      exact (checkShardRanges_bounds _ own _ rfl rfl).trans hCheck
    simp [enableSharding, updateMetadata, mergeOwnShardRange,
      enableShardingChecked] at hCheck2 ⊢
    simp [hCheck2]

/-- Witness for C4: after enabling the sample broker at time 7, a second
enable at time 9 returns the same epoch 7 and the unchanged broker. -/
theorem enable_idempotent_witness :
    enableSharding (enableSharding sampleBroker 7).broker 9 =
      ⟨0, (enableSharding sampleBroker 7).broker,
        EnableResult.alreadyEnabled 7⟩ := by
  exact ((enable_idempotent sampleBroker sampleOwn 7 9 0 rfl (by decide)).2
    rfl).2

/-- Claim C5: enable aborts with status 2 and no persisted change both
when the coverage validation of the stored shard ranges fails and when
the own range is observed in any state other than ACTIVE or SHARDING. -/
theorem enable_aborts_without_mutation (b : Broker) (own : ShardRange)
    (now : Nat) (hOwn : b.ownShardRange = some own) :
    (checkShardRanges own (liveShardRanges b) ≠ [] →
      (enableSharding b now).status = 2 ∧ (enableSharding b now).broker = b) ∧
    (own.state ≠ ShardState.ACTIVE → own.state ≠ ShardState.SHARDING →
      (enableSharding b now).status = 2 ∧ (enableSharding b now).broker = b) := by
  constructor
  · intro hne
    simp [enableSharding, hOwn, hne]
  · intro h1 h2
    by_cases hc : checkShardRanges own (liveShardRanges b) = []
    · simp [enableSharding, hOwn, hc, enableShardingChecked, h1, h2]
    · simp [enableSharding, hOwn, hc]

lemma findLoop_all_false (oracle : Nat → List ShardData × Bool)
    (h : ∀ n, (oracle n).2 = false) :
    ∀ fuel k acc, findLoop oracle fuel k acc false = none := by
  intro fuel
  induction fuel with
  | zero => intro k acc; simp [findLoop]
  | succ f ih =>
      intro k acc
      simp only [findLoop, Bool.false_eq_true, if_false]
      rw [h k]
      exact ih (k + 1) _

lemma findLoop_terminates_of_flag (oracle : Nat → List ShardData × Bool) :
    ∀ n k acc, (oracle (k + n)).2 = true →
      ∃ fuel, (findLoop oracle fuel k acc false).isSome = true := by
  intro n
  induction n with
  | zero =>
      intro k acc h
      rw [Nat.add_zero] at h
      exact ⟨1, by simp [findLoop, h]⟩
  | succ m ih =>
      intro k acc h
      cases hk : (oracle k).2 with
      | true => exact ⟨1, by simp [findLoop, hk]⟩
      | false =>
          have h2 : (oracle (k + 1 + m)).2 = true := by
            have he : k + 1 + m = k + (m + 1) := by omega
            rw [he]
            exact h
          obtain ⟨fuel, hf⟩ := ih (k + 1) (acc ++ (oracle k).1) h2
          refine ⟨fuel + 1, ?_⟩
          simp only [findLoop, Bool.false_eq_true, if_false]
          rw [hk]
          exact hf

lemma flag_of_findLoop_isSome (oracle : Nat → List ShardData × Bool) :
    ∀ fuel k acc, (findLoop oracle fuel k acc false).isSome = true →
      ∃ n, (oracle n).2 = true := by
  intro fuel
  induction fuel with
  | zero => intro k acc h; simp [findLoop] at h
  | succ f ih =>
      intro k acc h
      simp only [findLoop, Bool.false_eq_true, if_false] at h
      cases hk : (oracle k).2 with
      | true => exact ⟨k, hk⟩
      | false =>
          rw [hk] at h
          exact ih _ _ h

/-- Claim C6 (amended): the range-discovery loop of `_find_ranges`
terminates exactly when the first call to the store primitive returns no
ranges, or some call reports exhaustion of the namespace; a later call
returning no further ranges without reporting exhaustion does not end
the loop. -/
theorem find_ranges_terminates_iff (oracle : Nat → List ShardData × Bool) :
    findTerminates oracle ↔
      ((oracle 0).1 = [] ∨ ∃ n, (oracle n).2 = true) := by
  constructor
  · rintro ⟨fuel, h⟩
    by_cases h0 : (oracle 0).1 = []
    · exact Or.inl h0
    · rw [findRanges, if_neg h0] at h
      cases h2 : (oracle 0).2 with
      | true => exact Or.inr ⟨0, h2⟩
      | false =>
          rw [h2] at h
          exact Or.inr (flag_of_findLoop_isSome oracle fuel 1 _ h)
  · intro h
    by_cases h0 : (oracle 0).1 = []
    · exact ⟨0, by simp [findRanges, h0]⟩
    · rcases h with h0x | ⟨n, hn⟩
      · exact absurd h0x h0
      · cases h2 : (oracle 0).2 with
        | true => exact ⟨0, by rw [findRanges, if_neg h0, h2]; rfl⟩
        | false =>
            cases n with
            | zero => rw [hn] at h2; cases h2
            | succ m =>
                have hm : (oracle (1 + m)).2 = true := by
                  have he : 1 + m = m + 1 := by omega
                  rw [he]
                  exact hn
                obtain ⟨fuel, hf⟩ :=
                  findLoop_terminates_of_flag oracle m 1 (oracle 0).1 hm
                exact ⟨fuel, by rw [findRanges, if_neg h0, h2]; exact hf⟩

/-- Witness for C6 (amended) at a concrete input: a response sequence
that reports exhaustion on its first call makes the loop terminate. -/
theorem find_ranges_terminates_iff_witness :
    findTerminates exhaustedOracle :=
  (find_ranges_terminates_iff exhaustedOracle).mpr (Or.inr ⟨0, rfl⟩)

/-- Counterexample to C6 as stated: on the response sequence whose later
calls return no ranges but never report exhaustion, the discovery loop of
`_find_ranges` never terminates — a call returning no further ranges
does not by itself end the loop, and no exhaustion is ever reported. -/
theorem find_ranges_loop_can_stall : ¬ findTerminates stallingOracle := by
  rintro ⟨fuel, h⟩
  have hflag : ∀ n, (stallingOracle n).2 = false := by
    intro n
    cases n <;> rfl
  have h0 : (stallingOracle 0).1 ≠ [] := by decide
  rw [findRanges, if_neg h0] at h
  have h2 : (stallingOracle 0).2 = false := rfl
  rw [h2, findLoop_all_false stallingOracle hflag fuel 1 _] at h
  cases h

/-- Witness for C5: the SHARDED sample broker and the gapped sample
broker both make enable return status 2 with the broker unchanged. -/
theorem enable_aborts_without_mutation_witness :
    ((enableSharding sampleBrokerSharded 7).status = 2 ∧
      (enableSharding sampleBrokerSharded 7).broker = sampleBrokerSharded) ∧
    ((enableSharding sampleBrokerGap 7).status = 2 ∧
      (enableSharding sampleBrokerGap 7).broker = sampleBrokerGap) := by
  constructor
  · exact (enable_aborts_without_mutation sampleBrokerSharded sampleOwnSharded
      7 rfl).2 (by decide) (by decide)
  · exact (enable_aborts_without_mutation sampleBrokerGap sampleOwn 7 rfl).1
      (by decide)

/-- Claim C8: compact checks its three preconditions in order — root
container, already sharded, no overlaps among non-SHRINKING ranges — and
the first violated one aborts with status 2, its own distinct error and
no mutation; an empty plan is a success (status 0) with no mutation. -/
theorem compact_preconditions (b : Broker) (yes : Bool) (choice : String)
    (seqs : List (List ShardRange)) :
    (b.isRoot = false →
      compactShardRanges b yes choice seqs = ⟨2, b, CompactResult.notRoot⟩) ∧
    (b.isRoot = true → b.sharded = false →
      compactShardRanges b yes choice seqs = ⟨2, b, CompactResult.notSharded⟩) ∧
    (b.isRoot = true → b.sharded = true →
      findOverlappingRanges
        ((liveShardRanges b).filter fun sr => sr.state != ShardState.SHRINKING) =
        true →
      compactShardRanges b yes choice seqs = ⟨2, b, CompactResult.hasOverlaps⟩) ∧
    (b.isRoot = true → b.sharded = true →
      findOverlappingRanges
        ((liveShardRanges b).filter fun sr => sr.state != ShardState.SHRINKING) =
        false →
      seqs = [] →
      compactShardRanges b yes choice seqs = ⟨0, b, CompactResult.noCompactible⟩) := by
  refine ⟨?_, ?_, ?_, ?_⟩
  · intro h
    simp [compactShardRanges, h]
  · intro h1 h2
    simp [compactShardRanges, h1, h2]
  · intro h1 h2 h3
    simp [compactShardRanges, h1, h2, h3]
  · intro h1 h2 h3 h4
    simp [compactShardRanges, h1, h2, h3, h4]

/-- Witness for C8: a non-root sample broker aborts with the distinct
root error, and the sharded sample broker with an empty plan succeeds
with no mutation. -/
theorem compact_preconditions_witness :
    compactShardRanges { compactBroker with isRoot := false } false "y" [] =
      ⟨2, { compactBroker with isRoot := false }, CompactResult.notRoot⟩ ∧
    compactShardRanges compactBroker false "y" [] =
      ⟨0, compactBroker, CompactResult.noCompactible⟩ := by
  constructor
  · exact (compact_preconditions { compactBroker with isRoot := false } false
      "y" []).1 rfl
  · exact (compact_preconditions compactBroker false "y" []).2.2.2 rfl rfl
      (by decide) rfl

lemma deletePromptLoop_nonzero (b : Broker) (now : Nat) :
    ∀ inputs st b1 dr, deletePromptLoop b now inputs = some (st, b1, dr) →
      st ≠ 0 → b1 = b ∧ st = 1 := by
  intro inputs
  induction inputs with
  | nil =>
      intro st b1 dr h
      simp [deletePromptLoop] at h
  | cons c rest ih =>
      intro st b1 dr h hst
      simp only [deletePromptLoop] at h
      by_cases h1 : c = "s"
      · rw [if_pos h1] at h
        exact ih _ _ _ h hst
      · rw [if_neg h1] at h
        by_cases h2 : c = "q"
        · rw [if_pos h2] at h
          simp only [Option.some.injEq, Prod.mk.injEq] at h
          exact ⟨h.2.1.symm, h.1.symm⟩
        · rw [if_neg h2] at h
          by_cases h3 : c = "yes"
          · rw [if_pos h3] at h
            simp only [Option.some.injEq, Prod.mk.injEq] at h
            exact absurd h.1.symm hst
          · rw [if_neg h3] at h
            exact ih _ _ _ h hst

lemma deleteShardRanges_nonzero (b : Broker) (force : Bool) (now : Nat)
    (inputs : List String) (st : Nat) (b1 : Broker) (dr : DeleteResult)
    (h : deleteShardRanges b force now inputs = some (st, b1, dr))
    (hst : st ≠ 0) : b1 = b := by
  unfold deleteShardRanges at h
  by_cases hl : liveShardRanges b = []
  · rw [if_pos hl] at h
    simp only [Option.some.injEq, Prod.mk.injEq] at h
    exact absurd h.1.symm hst
  · rw [if_neg hl] at h
    cases force with
    | true =>
        simp only [if_true] at h
        simp only [Option.some.injEq, Prod.mk.injEq] at h
        exact absurd h.1.symm hst
    | false =>
        simp only [Bool.false_eq_true, if_false] at h
        exact (deletePromptLoop_nonzero b now inputs st b1 dr h hst).1

/-- Claim C7 (amended): exit statuses follow the scheme 0 on success, 1
on the delete confirmation abort and 2 on validation or precondition
errors, except inside the compact command: a planned sequence whose
acceptor is not in ACTIVE or SHARDED state exits with status 1, not 2,
and declining the compact confirmation prompt returns status 0 as a
no-op success rather than the user-abort status. -/
theorem exit_status_scheme (b : Broker) (yes : Bool) (choice : String)
    (seqs : List (List ShardRange)) (now : Nat) (rest : List String) :
    (liveShardRanges b ≠ [] →
      deleteShardRanges b false now ("q" :: rest) =
        some (1, b, DeleteResult.quit)) ∧
    (∀ s, b.isRoot = true → b.sharded = true →
      findOverlappingRanges
        ((liveShardRanges b).filter fun sr => sr.state != ShardState.SHRINKING) =
        false →
      seqs.find? acceptorBad = some s →
      (compactShardRanges b yes choice seqs).status = 1 ∧
      (compactShardRanges b yes choice seqs).broker = b) ∧
    (b.isRoot = true → b.sharded = true →
      findOverlappingRanges
        ((liveShardRanges b).filter fun sr => sr.state != ShardState.SHRINKING) =
        false →
      seqs ≠ [] → seqs.find? acceptorBad = none → choice ≠ "y" →
      compactShardRanges b false choice seqs = ⟨0, b, CompactResult.declined⟩) ∧
    (b.isRoot = false → (compactShardRanges b yes choice seqs).status = 2) := by
  refine ⟨?_, ?_, ?_, ?_⟩
  · intro hlive
    have h1 : ¬ (("q" : String) = "s") := by decide
    simp [deleteShardRanges, hlive, deletePromptLoop, h1]
  · intro s h1 h2 h3 hfind
    have hne : seqs ≠ [] := by
      rintro rfl
      simp [List.find?] at hfind
    simp [compactShardRanges, h1, h2, h3, hne, hfind]
  · intro h1 h2 h3 hne hfind hc
    have hcb : ¬ (choice = "y") := hc
    simp [compactShardRanges, h1, h2, h3, hne, hfind, hcb]
  · intro h
    simp [compactShardRanges, h]

/-- Witness for C7 (amended) at concrete inputs: quitting the delete
prompt of the sample broker exits 1, and a bad compact acceptor on the
sample sharded broker exits 1 leaving the broker unchanged. -/
theorem exit_status_scheme_witness :
    deleteShardRanges sampleBroker false 7 ["q"] =
      some (1, sampleBroker, DeleteResult.quit) ∧
    (compactShardRanges compactBroker false "y"
      [[compactLeft, compactBadAcceptor]]).status = 1 := by
  constructor
  · exact (exit_status_scheme sampleBroker false "y" [] 7 []).1 (by decide)
  · exact ((exit_status_scheme compactBroker false "y"
      [[compactLeft, compactBadAcceptor]] 7 []).2.1
      [compactLeft, compactBadAcceptor] rfl rfl (by decide) (by decide)).1

/-- Counterexample to C7 as stated: on the sample sharded root broker the
compact command exits with status 1, not 2, when a planned acceptor is in
the wrong state, and declining the compact confirmation returns status 0,
not the user-abort status 1. -/
theorem compact_status_counterexample :
    (compactShardRanges compactBroker false "y"
      [[compactLeft, compactBadAcceptor]]).status = 1 ∧
    ¬ (compactShardRanges compactBroker false "y"
      [[compactLeft, compactBadAcceptor]]).status = 2 ∧
    (compactShardRanges compactBroker false "n"
      [[compactLeft, compactRight]]).status = 0 ∧
    ¬ (compactShardRanges compactBroker false "n"
      [[compactLeft, compactRight]]).status = 1 := by
  decide

/-- Claim C10: replace merges the new shard ranges into the store only
after the embedded delete step returns status 0; a non-zero delete status
(for example a `q` answer at its confirmation prompt) is returned
unchanged by replace and no new shard ranges are injected — the broker is
exactly the one the aborted delete left, which is the original. -/
theorem replace_gated_on_delete (b : Broker) (data : List ShardData)
    (force enable : Bool) (now : Nat) (inputs : List String)
    (own : ShardRange) (st : Nat) (b1 : Broker) (dr : DeleteResult)
    (hOwn : b.ownShardRange = some own)
    (hCheck : checkShardRanges own (makeShardRanges data now) = [])
    (hDel : deleteShardRanges b force now inputs = some (st, b1, dr)) :
    (st ≠ 0 →
      replaceShardRanges b data force enable now inputs =
        some (st, b1, ReplaceResult.deleteAborted dr) ∧ b1 = b) ∧
    (st = 0 → enable = false →
      replaceShardRanges b data force enable now inputs =
        some (0, mergeShardRanges b1 (makeShardRanges data now),
          ReplaceResult.injected (makeShardRanges data now).length none)) := by
  constructor
  · intro hst
    have hb1 : b1 = b :=
      deleteShardRanges_nonzero b force now inputs st b1 dr hDel hst
    refine ⟨?_, hb1⟩
    simp [replaceShardRanges, hOwn, hCheck, hDel, hst]
  · intro h0 hen
    subst h0
    subst hen
    simp [replaceShardRanges, hOwn, hCheck, hDel]

/-- Witness for C10: replacing on the sample broker with a `q` answer at
the delete prompt returns status 1 and leaves the broker untouched. -/
theorem replace_gated_on_delete_witness :
    replaceShardRanges sampleBroker sampleData false false 7 ["q"] =
      some (1, sampleBroker, ReplaceResult.deleteAborted DeleteResult.quit) := by
  have h := replace_gated_on_delete sampleBroker sampleData false false 7
    ["q"] sampleOwn 1 sampleBroker DeleteResult.quit rfl (by decide) (by decide)
  exact (h.1 (by decide)).1

lemma parseRange_serializeRange (d : ShardData) :
    parseRange (serializeRange d) = some d := rfl

lemma parseAllRanges_map (ds : List ShardData) :
    parseAllRanges (ds.map serializeRange) = some ds := by
  induction ds with
  | nil => rfl
  | cons d rest ih => simp [parseAllRanges, parseRange_serializeRange, ih]

/-- Claim C9: serializing a list of discovered records with the find
output format and parsing it back through the replace input loader yields
records equal to the originals on the four interchange fields lower,
upper, index and object_count, in the same order. -/
theorem find_replace_round_trip (ds : List ShardData) :
    loadShardData (serializeFind ds) = some ds :=
  parseAllRanges_map ds

end ManageShardRanges
